import Mathlib

/- Verification of the solc-rs build pipeline (src/main.rs): a shallow
embedding of its data model and the four pipeline stages that the spec
describes (input assembly, output decomposition, artifact writing), with
theorems settling the spec's testable properties.

Modelling conventions:
  - Rust HashMap values are embedded as association lists; iteration order of
    a HashMap is unspecified, the list fixes one such order.
  - serde_json::Value is embedded as the inductive Json below; serde_json
    objects (BTreeMap, default feature set) keep keys sorted, which the
    assembler embedding reproduces with sorted insertion.
  - panics (Option::unwrap, .expect) are embedded as Except errors: a panic
    aborts the run before any later effect, exactly as a short-circuiting
    error does in the pure embedding.
  - Path::file_name / PathBuf::push / PathBuf::set_extension are embedded at
    the level of Unix path components (split on the separator, dropping empty
    and current-directory components, keeping parent-directory components).
    Path keys come from Rust Strings, so the to_str().unwrap() in the source
    can never fail and needs no error case.
-/

/-- serde_json::Value. -/
inductive Json where
  | null : Json
  | bool (b : Bool) : Json
  | num (n : Int) : Json
  | str (s : String) : Json
  | arr (xs : List Json) : Json
  | obj (fields : List (String × Json)) : Json

/-- Keys of a Json object (empty for non-objects). -/
def objKeys : Json → List String
  | Json.obj fields => fields.map Prod.fst
  | _ => []

/-- Association-list lookup, first binding wins (HashMap lookup). -/
def alookup {κ α : Type} [DecidableEq κ] : List (κ × α) → κ → Option α
  | [], _ => none
  | (k, v) :: t, q => if k = q then some v else alookup t q

/-- Field lookup in a Json object. -/
def jget (j : Json) (k : String) : Option Json :=
  match j with
  | Json.obj fields => alookup fields k
  | _ => none

/-- Splitting a character list on a separator character, with the same
semantics as String.splitOn for a one-character separator. -/
def splitOnChar (sep : Char) : List Char → List (List Char)
  | [] => [[]]
  | c :: t =>
    if c = sep then [] :: splitOnChar sep t
    else
      match splitOnChar sep t with
      | [] => [[c]]
      | w :: ws => (c :: w) :: ws

/-- Components of a Unix path string: split on the separator, drop empty and
current-directory components (as Rust Path::components does for the purpose
of file_name), keep parent-directory components. -/
def pathComponents (p : String) : List String :=
  ((splitOnChar '/' p.toList).map String.mk).filter (fun c => c != "" && c != ".")

/-- Whether a Unix path string is absolute (Rust Path::is_absolute). -/
def isAbsolutePath (p : String) : Bool :=
  match p.toList with
  | [] => false
  | c :: _ => c = '/'

/-- Rust Path::file_name: the last component, none when there is none or it
is a parent-directory component. -/
def pathFileName (p : String) : Option String :=
  match (pathComponents p).getLast? with
  | none => none
  | some c => if c = ".." then none else some c

/-- Rust Path::file_stem of a file name (a single component): the portion
before the final dot, the whole name when there is no dot or the only dot
is the leading character. -/
def fileStem (f : String) : String :=
  match f.toList.reverse.dropWhile (fun c => c != '.') with
  | [] => f
  | [_] => f
  | _ :: rest => String.mk rest.reverse

/-- Rust Path::extension of a file name: the portion after the final dot,
none when there is no dot or the only dot is the leading character. -/
def extensionOf (f : String) : Option String :=
  match f.toList.reverse.dropWhile (fun c => c != '.') with
  | [] => none
  | [_] => none
  | _ :: _ :: _ => some (String.mk (f.toList.reverse.takeWhile (fun c => c != '.')).reverse)

/-- struct SolidityFile. -/
structure SolidityFile where
  content : String

/-- struct SolcBytecodeOutput. -/
structure SolcBytecodeOutput where
  object : String
  source_map : String

/-- struct SolcContractEvm. -/
structure SolcContractEvm where
  bytecode : SolcBytecodeOutput
  deployed_bytecode : SolcBytecodeOutput

/-- struct SolcContract. -/
structure SolcContract where
  evm : SolcContractEvm
  abi : Json

/-- struct SolcSource. -/
structure SolcSource where
  ast : Json

/-- struct SolcError. -/
structure SolcError where
  severity : String
  formatted_message : String

/-- struct SolcOutput. -/
structure SolcOutput where
  contracts : List (String × List (String × SolcContract))
  sources : List (String × SolcSource)
  errors : List SolcError

/-- struct SolidityArtifact. -/
structure SolidityArtifact where
  contract_name : String
  file_name : String
  source_path : String
  source : String
  bytecode : String
  deployed_bytecode : String
  source_map : String
  deployed_source_map : String
  abi : Json
  ast : Json

/-- The panics the Decomposer can hit, named after the spec's taxonomy:
the two unwraps on map lookups and the unwrap on Path::file_name. -/
inductive DecomposeError where
  | missingSourceMeta (path : String) : DecomposeError
  | missingSourceFile (path : String) : DecomposeError
  | missingFileName (path : String) : DecomposeError
deriving DecidableEq

/-- fn build_contract_schema: flattens one (path, name, entity) triple into an
artifact; the file_name unwrap panics when the path has no file name. -/
def build_contract_schema (path name source : String) (solc_source : SolcSource)
    (solc_contract : SolcContract) : Except DecomposeError SolidityArtifact :=
  match pathFileName path with
  | none => Except.error (DecomposeError.missingFileName path)
  | some fn => Except.ok
      { abi := solc_contract.abi
        bytecode := solc_contract.evm.bytecode.object
        deployed_bytecode := solc_contract.evm.deployed_bytecode.object
        contract_name := name
        file_name := fn
        ast := solc_source.ast
        source_path := path
        source := source
        source_map := solc_contract.evm.bytecode.source_map
        deployed_source_map := solc_contract.evm.deployed_bytecode.source_map }

/-- The inner iterator of build_contract_schemas: for each entity under one
path, look up the original source text (unwrap: panics when absent) and build
its schema. The lookup sits inside the per-entity closure, so an empty entity
list never performs it. -/
def decomposeEntities (sources : List (String × SolidityFile)) (path : String)
    (solc_source : SolcSource) :
    List (String × SolcContract) → Except DecomposeError (List SolidityArtifact)
  | [] => Except.ok []
  | (name, c) :: t =>
    match alookup sources path with
    | none => Except.error (DecomposeError.missingSourceFile path)
    | some f =>
      match build_contract_schema path name f.content solc_source c with
      | Except.error e => Except.error e
      | Except.ok a =>
        match decomposeEntities sources path solc_source t with
        | Except.error e => Except.error e
        | Except.ok rest => Except.ok (a :: rest)

/-- The outer flat_map of build_contract_schemas: for each path, look up its
SourceMeta in the compiler output (unwrap: panics when absent, even for an
empty entity list, since the flat_map closure runs per path), then iterate the
entities. -/
def decomposeContracts (output_sources : List (String × SolcSource))
    (sources : List (String × SolidityFile)) :
    List (String × List (String × SolcContract)) →
    Except DecomposeError (List SolidityArtifact)
  | [] => Except.ok []
  | (path, cs) :: t =>
    match alookup output_sources path with
    | none => Except.error (DecomposeError.missingSourceMeta path)
    | some solc_source =>
      match decomposeEntities sources path solc_source cs with
      | Except.error e => Except.error e
      | Except.ok arts =>
        match decomposeContracts output_sources sources t with
        | Except.error e => Except.error e
        | Except.ok rest => Except.ok (arts ++ rest)

/-- fn build_contract_schemas. -/
def build_contract_schemas (output : SolcOutput)
    (sources : List (String × SolidityFile)) :
    Except DecomposeError (List SolidityArtifact) :=
  decomposeContracts output.sources sources output.contracts

/-- Total number of (path, entity) pairs in a contracts mapping. -/
def entityCount (contracts : List (String × List (String × SolcContract))) : Nat :=
  (contracts.map (fun p => p.2.length)).sum

/-- An opening brace as text. -/
def obrace : String := "\x7b"

/-- A closing brace as text. -/
def cbrace : String := "\x7d"

/-- Hex digit for serde_json's control-character escapes. -/
def hexDigitChar (n : Nat) : Char :=
  if n < 10 then Char.ofNat (48 + n) else Char.ofNat (87 + n)

/-- serde_json string escaping for one character: the two-character shortcuts,
u-escapes for the remaining control characters, everything else verbatim. -/
def escapeChar (c : Char) : String :=
  if c = '"' then "\\\""
  else if c = '\\' then "\\\\"
  else if c = Char.ofNat 8 then "\\b"
  else if c = Char.ofNat 9 then "\\t"
  else if c = Char.ofNat 10 then "\\n"
  else if c = Char.ofNat 12 then "\\f"
  else if c = Char.ofNat 13 then "\\r"
  else if c.toNat < 32 then
    "\\u00" ++ String.mk [hexDigitChar (c.toNat / 16), hexDigitChar (c.toNat % 16)]
  else String.singleton c

/-- serde_json rendering of a string literal. -/
def quoteJson (s : String) : String :=
  "\"" ++ String.join (s.toList.map escapeChar) ++ "\""

/-- Indentation of serde_json's pretty formatter: two spaces per level. -/
def indentStr (d : Nat) : String :=
  String.join (List.replicate d "  ")

mutual

/-- serde_json::to_string_pretty rendering of a value at depth d. -/
def renderJson (d : Nat) : Json → String
  | Json.null => "null"
  | Json.bool b => if b then "true" else "false"
  | Json.num n => toString n
  | Json.str s => quoteJson s
  | Json.arr [] => "[]"
  | Json.arr (x :: t) =>
      "[\n" ++ indentStr (d + 1) ++ renderJson (d + 1) x ++ renderItems (d + 1) t
        ++ "\n" ++ indentStr d ++ "]"
  | Json.obj [] => obrace ++ cbrace
  | Json.obj ((k, v) :: t) =>
      obrace ++ "\n" ++ indentStr (d + 1) ++ quoteJson k ++ ": "
        ++ renderJson (d + 1) v ++ renderFields (d + 1) t
        ++ "\n" ++ indentStr d ++ cbrace

/-- Remaining array elements, each preceded by a comma and a newline. -/
def renderItems (d : Nat) : List Json → String
  | [] => ""
  | x :: t => ",\n" ++ indentStr d ++ renderJson d x ++ renderItems d t

/-- Remaining object fields, each preceded by a comma and a newline. -/
def renderFields (d : Nat) : List (String × Json) → String
  | [] => ""
  | (k, v) :: t =>
      ",\n" ++ indentStr d ++ quoteJson k ++ ": " ++ renderJson d v
        ++ renderFields d t

end

/-- The serde serialization of a SolidityArtifact as a Json value: fields in
declaration order, names in camelCase per the serde rename attribute. -/
def artifactJson (a : SolidityArtifact) : Json :=
  Json.obj
    [ ("contractName", Json.str a.contract_name)
    , ("fileName", Json.str a.file_name)
    , ("sourcePath", Json.str a.source_path)
    , ("source", Json.str a.source)
    , ("bytecode", Json.str a.bytecode)
    , ("deployedBytecode", Json.str a.deployed_bytecode)
    , ("sourceMap", Json.str a.source_map)
    , ("deployedSourceMap", Json.str a.deployed_source_map)
    , ("abi", a.abi)
    , ("ast", a.ast) ]

/-- serde_json::to_string_pretty of an artifact, the bytes written to disk. -/
def serializeArtifact (a : SolidityArtifact) : String :=
  renderJson 0 (artifactJson a)

/-- The output directory "./build/contracts/" as path components (the
current-directory component is dropped, as in pathComponents). -/
def outputDirComponents : List String := ["build", "contracts"]

/-- PathBuf::from(output_path) with the contract name pushed: push appends
the name's components, or replaces the whole path for an absolute name. -/
def pushedPath (contract_name : String) : List String :=
  if isAbsolutePath contract_name then pathComponents contract_name
  else outputDirComponents ++ pathComponents contract_name

/-- The path written for one artifact: PathBuf::from(output_path), push the
contract name, set_extension("json"). set_extension replaces the final
component's extension and is a no-op when the pushed path has no file name —
in that case the subsequent fs::write targets a directory and fails
(none here). -/
def writeTarget (contract_name : String) : Option (List String) :=
  match (pushedPath contract_name).getLast? with
  | none => none
  | some last =>
    if last = ".." then none
    else some ((pushedPath contract_name).dropLast ++ [fileStem last ++ ".json"])

/-- The modelled file system: written paths (as component lists) with their
byte content. -/
abbrev Fs : Type := List (List String × String)

/-- Overwriting write: replace the first binding of the key, else append. -/
def ains {κ α : Type} [DecidableEq κ] : List (κ × α) → κ → α → List (κ × α)
  | [], k, v => [(k, v)]
  | (k', v') :: t, k, v =>
    if k' = k then (k, v) :: t else (k', v') :: ains t k v

/-- A failed fs::write (.expect panics): the pushed path had no file name, so
the write targets a directory or a nonexistent parent. Other write failures
(disk full, permissions) are environment-dependent and not modelled: the
abstract file system accepts every well-formed path. -/
inductive WriteError where
  | writeFailed (contract_name : String) : WriteError
deriving DecidableEq

/-- fn write_contract_schemas: serialize each artifact and write it, in
order; a later write to the same path overwrites an earlier one. -/
def write_contract_schemas : List SolidityArtifact → Fs → Except WriteError Fs
  | [], fs => Except.ok fs
  | a :: t, fs =>
    match writeTarget a.contract_name with
    | none => Except.error (WriteError.writeFailed a.contract_name)
    | some p => write_contract_schemas t (ains fs p (serializeArtifact a))

/-- BTreeMap insertion into a key-sorted association list (serde_json object
building: a later binding for the same key overwrites). -/
def sortedInsert (m : List (String × Json)) (k : String) (v : Json) :
    List (String × Json) :=
  match m with
  | [] => [(k, v)]
  | (k', v') :: t =>
    if k < k' then (k, v) :: (k', v') :: t
    else if k = k' then (k, v) :: t
    else (k', v') :: sortedInsert t k v

/-- Collecting an iterator of pairs into a serde_json object (BTreeMap). -/
def jsonOfMap (l : List (String × Json)) : List (String × Json) :=
  l.foldl (fun m p => sortedInsert m p.1 p.2) []

/-- fn build_solc_input_json: the standard-json compiler request. The literal
keys of the json macro are written here in the sorted order serde_json's
BTreeMap stores them in; the sources map is collected by sorted insertion. -/
def build_solc_input_json (sources : List (String × SolidityFile))
    (evm_version : String) : Json :=
  Json.obj
    [ ("language", Json.str "Solidity")
    , ("settings", Json.obj
        [ ("evmVersion", Json.str evm_version)
        , ("optimizer", Json.obj [("enabled", Json.bool false)])
        , ("outputSelection", Json.obj
            [ ("*", Json.obj
                [ ("", Json.arr [Json.str "ast"])
                , ("*", Json.arr
                    [ Json.str "abi"
                    , Json.str "evm.bytecode.object"
                    , Json.str "evm.deployedBytecode.object" ]) ]) ]) ])
    , ("sources", Json.obj (jsonOfMap (sources.map
        (fun p => (p.1, Json.obj [("content", Json.str p.2.content)]))))) ]

/-- A fatal error of the artifact-producing tail of main: a Decomposer panic
or a Writer panic. -/
inductive PipelineError where
  | decompose (e : DecomposeError) : PipelineError
  | write (e : WriteError) : PipelineError
deriving DecidableEq

/-- The artifact-producing tail of fn main, from a parsed compiler output and
the collected sources to the files on disk: build the artifacts, then write
them into the (already created) output directory state fs. -/
def run_pipeline (output : SolcOutput) (sources : List (String × SolidityFile))
    (fs : Fs) : Except PipelineError Fs :=
  match build_contract_schemas output sources with
  | Except.error e => Except.error (PipelineError.decompose e)
  | Except.ok arts =>
    match write_contract_schemas arts fs with
    | Except.error e => Except.error (PipelineError.write e)
    | Except.ok fs2 => Except.ok fs2

/-- The write sequence an artifact list resolves to, when every artifact has a
writable target: target path with serialized content, in processing order. -/
def resolvePairs : List SolidityArtifact → Option (List (List String × String))
  | [] => some []
  | a :: t =>
    match writeTarget a.contract_name with
    | none => none
    | some p =>
      match resolvePairs t with
      | none => none
      | some ps => some ((p, serializeArtifact a) :: ps)

/-- Folding a write sequence over a file-system state. -/
def applyWrites {κ α : Type} [DecidableEq κ] (m l : List (κ × α)) : List (κ × α) :=
  l.foldl (fun fs p => ains fs p.1 p.2) m

/-- The last value written for a key by a write sequence, if any. -/
def lastWrite {κ α : Type} [DecidableEq κ] : List (κ × α) → κ → Option α
  | [], _ => none
  | (k, v) :: t, q =>
    match lastWrite t q with
    | some r => some r
    | none => if k = q then some v else none

/-- The artifact the Decomposer builds for the entity nc declared in source
path p, whose file name is fn, original text f and compiler metadata ss. -/
def artifactFor (p fn : String) (f : SolidityFile) (ss : SolcSource)
    (nc : String × SolcContract) : SolidityArtifact :=
  { contract_name := nc.1
    file_name := fn
    source_path := p
    source := f.content
    bytecode := nc.2.evm.bytecode.object
    deployed_bytecode := nc.2.evm.deployed_bytecode.object
    source_map := nc.2.evm.bytecode.source_map
    deployed_source_map := nc.2.evm.deployed_bytecode.source_map
    abi := nc.2.abi
    ast := ss.ast }

/-- The outputSelection object of the compiler request, as written in the
json literal of build_solc_input_json. -/
def outputSelectionJson : Json :=
  Json.obj
    [ ("*", Json.obj
        [ ("", Json.arr [Json.str "ast"])
        , ("*", Json.arr
            [ Json.str "abi"
            , Json.str "evm.bytecode.object"
            , Json.str "evm.deployedBytecode.object" ]) ]) ]

/-- A sample compiled entity used by concrete instantiations. -/
def exContract : SolcContract := ⟨⟨⟨"6080", "sm"⟩, ⟨"6081", "dsm"⟩⟩, Json.arr []⟩

/-- A sample per-file compiler metadata record. -/
def exMeta : SolcSource := ⟨Json.null⟩

/-- A sample collected source file. -/
def exFile : SolidityFile := ⟨"contract C"⟩

/-- A consistent one-entity compiler output. -/
def exOut4 : SolcOutput :=
  ⟨[("contracts/a.sol", [("C", exContract)])], [("contracts/a.sol", exMeta)], []⟩

/-- The source mapping matching exOut4. -/
def exS4 : List (String × SolidityFile) := [("contracts/a.sol", exFile)]

/-- A one-file source mapping keyed by a bare file name. -/
def exS1 : List (String × SolidityFile) := [("a.sol", exFile)]

/-- A compiler output whose sole entity name is empty. -/
def cexOut1 : SolcOutput :=
  ⟨[("a.sol", [("", exContract)])], [("a.sol", exMeta)], []⟩

/-- A compiler output with two contract paths: the first is present in its
sources mapping (but not in the original source mapping), the second is
absent from its sources mapping. -/
def cexOut2 : SolcOutput :=
  ⟨[("a.sol", [("C", exContract)]), ("b.sol", [("C", exContract)])],
    [("a.sol", exMeta)], []⟩

/-- A compiler output whose sole contract path is absent from its sources
mapping. -/
def cexOut2w : SolcOutput := ⟨[("a.sol", [("C", exContract)])], [], []⟩

/-- A compiler output with a contract path carrying zero entities, present in
its own sources mapping. -/
def cexOut8 : SolcOutput := ⟨[("a.sol", [])], [("a.sol", exMeta)], []⟩

/-- A consistent compiler output whose contract path is absent from the
original source mapping. -/
def cexOut8w : SolcOutput :=
  ⟨[("a.sol", [("C", exContract)])], [("a.sol", exMeta)], []⟩

/-- A compiler output keyed by a path with no file name and zero entities. -/
def cexOut10 : SolcOutput := ⟨[("..", [])], [("..", exMeta)], []⟩

/-- A source mapping for the parent-directory path key. -/
def cexS10 : List (String × SolidityFile) := [("..", exFile)]

/-- A compiler output keyed by a path with no file name and one entity. -/
def cexOut10w : SolcOutput := ⟨[("..", [("C", exContract)])], [("..", exMeta)], []⟩

/-- A sample artifact with the given entity name and source path. -/
def exArtifact (nm sp : String) : SolidityArtifact :=
  { contract_name := nm
    file_name := "a.sol"
    source_path := sp
    source := "contract C"
    bytecode := "6080"
    deployed_bytecode := "6081"
    source_map := "sm"
    deployed_source_map := "dsm"
    abi := Json.arr []
    ast := Json.null }

/-- The file-system state left by writing two same-named artifacts. -/
def exFs6 : Fs :=
  [(outputDirComponents ++ ["C.json"], serializeArtifact (exArtifact "C" "b.sol"))]

/-- The file-system state left by the pipeline on exOut4 and exS4. -/
def exFs9 : Fs :=
  [(outputDirComponents ++ ["C.json"],
    serializeArtifact (artifactFor "contracts/a.sol" "a.sol" exFile exMeta
      ("C", exContract)))]

theorem alookup_eq_none {κ α : Type} [DecidableEq κ] :
    ∀ (l : List (κ × α)) (q : κ), q ∉ l.map Prod.fst → alookup l q = none
  | [], _, _ => rfl
  | (k, v) :: t, q, h => by
    simp only [List.map_cons, List.mem_cons] at h
    push_neg at h
    have hne : ¬ k = q := fun hkq => h.1 hkq.symm
    simp only [alookup, if_neg hne]
    exact alookup_eq_none t q h.2

theorem alookup_ains {κ α : Type} [DecidableEq κ] :
    ∀ (m : List (κ × α)) (k : κ) (v : α) (q : κ),
      alookup (ains m k v) q = if k = q then some v else alookup m q
  | [], k, v, q => by simp [ains, alookup]
  | (k', v') :: t, k, v, q => by
    by_cases hk : k' = k
    · subst hk
      simp only [ains, if_pos rfl, alookup]
      by_cases hq : k' = q
      · simp [hq]
      · simp [hq]
    · simp only [ains, if_neg hk, alookup, alookup_ains t k v q]
      by_cases hq : k' = q
      · subst hq
        have hne : ¬ k = k' := fun h => hk h.symm
        simp [hne]
      · simp [hq]

theorem mem_map_fst_ains_self {κ α : Type} [DecidableEq κ] :
    ∀ (m : List (κ × α)) (k : κ) (v : α), k ∈ (ains m k v).map Prod.fst
  | [], k, v => by simp [ains]
  | (k', v') :: t, k, v => by
    by_cases hk : k' = k
    · simp [ains, hk]
    · simp only [ains, if_neg hk, List.map_cons, List.mem_cons]
      exact Or.inr (mem_map_fst_ains_self t k v)

theorem map_fst_ains_of_mem {κ α : Type} [DecidableEq κ] :
    ∀ (m : List (κ × α)) (k : κ) (v : α), k ∈ m.map Prod.fst →
      (ains m k v).map Prod.fst = m.map Prod.fst
  | [], k, v, h => by simp at h
  | (k', v') :: t, k, v, h => by
    by_cases hk : k' = k
    · simp [ains, hk]
    · simp only [List.map_cons, List.mem_cons] at h
      rcases h with h | h
      · exact absurd h.symm hk
      · simp only [ains, if_neg hk, List.map_cons, map_fst_ains_of_mem t k v h]

theorem map_fst_ains_of_not_mem {κ α : Type} [DecidableEq κ] :
    ∀ (m : List (κ × α)) (k : κ) (v : α), k ∉ m.map Prod.fst →
      (ains m k v).map Prod.fst = m.map Prod.fst ++ [k]
  | [], k, v, _ => by simp [ains]
  | (k', v') :: t, k, v, h => by
    simp only [List.map_cons, List.mem_cons] at h
    push_neg at h
    have hne : ¬ k' = k := fun hkq => h.1 hkq.symm
    simp only [ains, if_neg hne, List.map_cons,
      map_fst_ains_of_not_mem t k v h.2, List.cons_append]

theorem subset_map_fst_ains {κ α : Type} [DecidableEq κ]
    (m : List (κ × α)) (k : κ) (v : α) (x : κ) (h : x ∈ m.map Prod.fst) :
    x ∈ (ains m k v).map Prod.fst := by
  by_cases hk : k ∈ m.map Prod.fst
  · rw [map_fst_ains_of_mem m k v hk]; exact h
  · rw [map_fst_ains_of_not_mem m k v hk]; exact List.mem_append_left _ h

theorem nodup_map_fst_ains {κ α : Type} [DecidableEq κ]
    (m : List (κ × α)) (k : κ) (v : α) (h : (m.map Prod.fst).Nodup) :
    ((ains m k v).map Prod.fst).Nodup := by
  by_cases hk : k ∈ m.map Prod.fst
  · rw [map_fst_ains_of_mem m k v hk]; exact h
  · rw [map_fst_ains_of_not_mem m k v hk]
    simp [List.nodup_append, h, hk]

theorem alookup_applyWrites {κ α : Type} [DecidableEq κ] :
    ∀ (l m : List (κ × α)) (q : κ),
      alookup (applyWrites m l) q =
        match lastWrite l q with
        | some r => some r
        | none => alookup m q
  | [], m, q => rfl
  | (k, v) :: t, m, q => by
    show alookup (applyWrites (ains m k v) t) q = _
    rw [alookup_applyWrites t (ains m k v) q]
    simp only [lastWrite]
    rcases hlw : lastWrite t q with _ | r
    · simp only [alookup_ains]
      by_cases hq : k = q
      · simp [hq]
      · simp [hq]
    · simp

theorem mem_map_fst_applyWrites_of_mem {κ α : Type} [DecidableEq κ] :
    ∀ (l m : List (κ × α)) (x : κ), x ∈ m.map Prod.fst →
      x ∈ (applyWrites m l).map Prod.fst
  | [], m, x, h => h
  | (k, v) :: t, m, x, h =>
    mem_map_fst_applyWrites_of_mem t (ains m k v) x (subset_map_fst_ains m k v x h)

theorem mem_map_fst_applyWrites_of_write {κ α : Type} [DecidableEq κ] :
    ∀ (l m : List (κ × α)) (k : κ) (v : α), (k, v) ∈ l →
      k ∈ (applyWrites m l).map Prod.fst
  | [], m, k, v, h => by simp at h
  | (k', v') :: t, m, k, v, h => by
    rcases List.mem_cons.mp h with h | h
    · cases h
      exact mem_map_fst_applyWrites_of_mem t _ _ (mem_map_fst_ains_self m _ _)
    · exact mem_map_fst_applyWrites_of_write t (ains m k' v') k v h

theorem map_fst_applyWrites_of_covered {κ α : Type} [DecidableEq κ] :
    ∀ (l m : List (κ × α)), (∀ p ∈ l, p.1 ∈ m.map Prod.fst) →
      (applyWrites m l).map Prod.fst = m.map Prod.fst
  | [], m, _ => rfl
  | (k, v) :: t, m, h => by
    have hk : k ∈ m.map Prod.fst := h (k, v) (List.mem_cons_self _ _)
    have hkeys := map_fst_ains_of_mem m k v hk
    show (applyWrites (ains m k v) t).map Prod.fst = _
    rw [map_fst_applyWrites_of_covered t (ains m k v)
      (fun p hp => by rw [hkeys]; exact h p (List.mem_cons_of_mem _ hp)), hkeys]

theorem nodup_map_fst_applyWrites {κ α : Type} [DecidableEq κ] :
    ∀ (l m : List (κ × α)), (m.map Prod.fst).Nodup →
      ((applyWrites m l).map Prod.fst).Nodup
  | [], m, h => h
  | (k, v) :: t, m, h =>
    nodup_map_fst_applyWrites t (ains m k v) (nodup_map_fst_ains m k v h)

theorem alist_ext {κ α : Type} [DecidableEq κ] :
    ∀ (l1 l2 : List (κ × α)), l1.map Prod.fst = l2.map Prod.fst →
      (l1.map Prod.fst).Nodup → (∀ q, alookup l1 q = alookup l2 q) → l1 = l2
  | [], [], _, _, _ => rfl
  | [], (k, v) :: t, hk, _, _ => by simp at hk
  | (k, v) :: t, [], hk, _, _ => by simp at hk
  | (k1, v1) :: t1, (k2, v2) :: t2, hk, hn, hl => by
    simp only [List.map_cons, List.cons.injEq] at hk
    obtain ⟨hk12, hkt⟩ := hk
    subst hk12
    simp only [List.map_cons, List.nodup_cons] at hn
    have hv : v1 = v2 := by
      have := hl k1
      simp only [alookup, if_pos rfl] at this
      exact Option.some.inj this
    subst hv
    have ht : t1 = t2 := by
      refine alist_ext t1 t2 hkt hn.2 (fun q => ?_)
      by_cases hq : k1 = q
      · subst hq
        rw [alookup_eq_none t1 k1 hn.1, alookup_eq_none t2 k1 (hkt ▸ hn.1)]
      · have := hl q
        simpa only [alookup, if_neg hq] using this
    rw [ht]

theorem applyWrites_idem {κ α : Type} [DecidableEq κ]
    (m l : List (κ × α)) (h : (m.map Prod.fst).Nodup) :
    applyWrites (applyWrites m l) l = applyWrites m l := by
  refine alist_ext _ _ ?_ ?_ ?_
  · exact map_fst_applyWrites_of_covered l (applyWrites m l)
      (fun p hp => mem_map_fst_applyWrites_of_write l m p.1 p.2 hp)
  · exact nodup_map_fst_applyWrites l (applyWrites m l)
      (nodup_map_fst_applyWrites l m h)
  · intro q
    rw [alookup_applyWrites l (applyWrites m l) q]
    cases hlw : lastWrite l q with
    | none => rfl
    | some r =>
      show some r = alookup (applyWrites m l) q
      rw [alookup_applyWrites l m q, hlw]

theorem lastWrite_append {κ α : Type} [DecidableEq κ] :
    ∀ (l1 l2 : List (κ × α)) (q : κ),
      lastWrite (l1 ++ l2) q =
        match lastWrite l2 q with
        | some r => some r
        | none => lastWrite l1 q
  | [], l2, q => by
    show lastWrite l2 q = _
    rcases h : lastWrite l2 q with _ | r <;> simp [lastWrite]
  | (k, v) :: t, l2, q => by
    show (match lastWrite (t ++ l2) q with
      | some r => some r
      | none => if k = q then some v else none) = _
    rw [lastWrite_append t l2 q]
    rcases h2 : lastWrite l2 q with _ | r
    · rfl
    · rfl

theorem lastWrite_eq_none {κ α : Type} [DecidableEq κ] :
    ∀ (l : List (κ × α)) (q : κ), (∀ p ∈ l, p.1 ≠ q) → lastWrite l q = none
  | [], _, _ => rfl
  | (k, v) :: t, q, h => by
    show (match lastWrite t q with
      | some r => some r
      | none => if k = q then some v else none) = none
    rw [lastWrite_eq_none t q (fun p hp => h p (List.mem_cons_of_mem _ hp))]
    exact if_neg (h (k, v) (List.mem_cons_self _ _))

theorem countP_key_eq_zero {κ α : Type} [DecidableEq κ] :
    ∀ (l : List (κ × α)) (q : κ), q ∉ l.map Prod.fst →
      l.countP (fun e => decide (e.1 = q)) = 0
  | [], _, _ => rfl
  | (k, v) :: t, q, h => by
    simp only [List.map_cons, List.mem_cons] at h
    push_neg at h
    rw [List.countP_cons]
    rw [countP_key_eq_zero t q h.2]
    have hne : ¬ k = q := fun hh => h.1 hh.symm
    simp [hne]

theorem write_eq_of_resolve :
    ∀ (l : List SolidityArtifact) (ps : List (List String × String)),
      resolvePairs l = some ps →
      ∀ fs, write_contract_schemas l fs = Except.ok (applyWrites fs ps)
  | [], ps, h, fs => by
    cases h
    rfl
  | a :: t, ps, h, fs => by
    simp only [resolvePairs] at h
    cases hw : writeTarget a.contract_name with
    | none => rw [hw] at h; cases h
    | some p =>
      rw [hw] at h
      cases hr : resolvePairs t with
      | none => rw [hr] at h; cases h
      | some ps2 =>
        rw [hr] at h
        cases h
        simp only [write_contract_schemas, hw]
        rw [write_eq_of_resolve t ps2 hr (ains fs p (serializeArtifact a))]
        rfl

theorem resolve_of_write_ok :
    ∀ (l : List SolidityArtifact) (fs fs2 : Fs),
      write_contract_schemas l fs = Except.ok fs2 → ∃ ps, resolvePairs l = some ps
  | [], _, _, _ => ⟨[], rfl⟩
  | a :: t, fs, fs2, h => by
    simp only [write_contract_schemas] at h
    cases hw : writeTarget a.contract_name with
    | none => rw [hw] at h; cases h
    | some p =>
      rw [hw] at h
      obtain ⟨ps, hps⟩ := resolve_of_write_ok t _ fs2 h
      exact ⟨(p, serializeArtifact a) :: ps, by simp [resolvePairs, hw, hps]⟩

theorem resolvePairs_append :
    ∀ (l1 l2 : List SolidityArtifact) (p1 p2 : List (List String × String)),
      resolvePairs l1 = some p1 → resolvePairs l2 = some p2 →
      resolvePairs (l1 ++ l2) = some (p1 ++ p2)
  | [], l2, p1, p2, h1, h2 => by
    cases h1
    simpa using h2
  | a :: t, l2, p1, p2, h1, h2 => by
    simp only [resolvePairs] at h1
    simp only [List.cons_append, resolvePairs]
    cases hw : writeTarget a.contract_name with
    | none => rw [hw] at h1; cases h1
    | some p =>
      rw [hw] at h1
      cases hr : resolvePairs t with
      | none => rw [hr] at h1; cases h1
      | some ps2 =>
        rw [hr] at h1
        cases h1
        show (match resolvePairs (t ++ l2) with
          | none => none
          | some ps => some ((p, serializeArtifact a) :: ps)) = _
        rw [resolvePairs_append t l2 ps2 p2 hr h2]
        rfl

theorem mem_resolvePairs :
    ∀ (l : List SolidityArtifact) (ps : List (List String × String))
      (k : List String) (v : String),
      resolvePairs l = some ps → (k, v) ∈ ps →
      ∃ a, a ∈ l ∧ writeTarget a.contract_name = some k
  | [], ps, k, v, h, hm => by
    cases h
    simp at hm
  | a :: t, ps, k, v, h, hm => by
    simp only [resolvePairs] at h
    cases hw : writeTarget a.contract_name with
    | none => rw [hw] at h; cases h
    | some p =>
      rw [hw] at h
      cases hr : resolvePairs t with
      | none => rw [hr] at h; cases h
      | some ps2 =>
        rw [hr] at h
        cases h
        rcases List.mem_cons.mp hm with hm | hm
        · have hk : k = p := congrArg Prod.fst hm
          exact ⟨a, List.mem_cons_self _ _, hk.symm ▸ hw⟩
        · obtain ⟨b, hb, hbt⟩ := mem_resolvePairs t ps2 k v hr hm
          exact ⟨b, List.mem_cons_of_mem _ hb, hbt⟩

theorem alookup_append {κ α : Type} [DecidableEq κ] :
    ∀ (l1 l2 : List (κ × α)) (q : κ),
      alookup (l1 ++ l2) q =
        match alookup l1 q with
        | some v => some v
        | none => alookup l2 q
  | [], l2, q => rfl
  | (k, v) :: t, l2, q => by
    simp only [List.cons_append, alookup]
    by_cases hq : k = q
    · simp [hq]
    · simp only [if_neg hq]
      exact alookup_append t l2 q

theorem alookup_reverse_of_nodup {κ α : Type} [DecidableEq κ] :
    ∀ (l : List (κ × α)), (l.map Prod.fst).Nodup →
      ∀ q, alookup l.reverse q = alookup l q
  | [], _, _ => rfl
  | (k, v) :: t, hn, q => by
    simp only [List.map_cons, List.nodup_cons] at hn
    rw [List.reverse_cons, alookup_append t.reverse [(k, v)] q]
    by_cases hq : k = q
    · subst hq
      rw [alookup_reverse_of_nodup t hn.2 k, alookup_eq_none t k hn.1]
      simp [alookup]
    · rw [alookup_reverse_of_nodup t hn.2 q]
      simp only [alookup, if_neg hq]
      cases h : alookup t q
      · simp [alookup, hq]
      · simp

theorem alookup_sortedInsert :
    ∀ (m : List (String × Json)) (k : String) (v : Json) (q : String),
      alookup (sortedInsert m k v) q = if k = q then some v else alookup m q
  | [], k, v, q => by simp [sortedInsert, alookup]
  | (k', v') :: t, k, v, q => by
    simp only [sortedInsert]
    by_cases hlt : k < k'
    · simp only [if_pos hlt, alookup]
    · simp only [if_neg hlt]
      by_cases heq : k = k'
      · subst heq
        simp only [if_pos rfl, alookup]
        by_cases hq : k = q
        · simp [hq]
        · simp [hq]
      · simp only [if_neg heq, alookup, alookup_sortedInsert t k v q]
        by_cases hq : k' = q
        · subst hq
          simp [heq]
        · simp [hq]

theorem alookup_foldl_sortedInsert :
    ∀ (l m : List (String × Json)) (q : String),
      alookup (l.foldl (fun acc p => sortedInsert acc p.1 p.2) m) q =
        match alookup l.reverse q with
        | some v => some v
        | none => alookup m q
  | [], m, q => rfl
  | (k, v) :: t, m, q => by
    rw [List.reverse_cons, alookup_append t.reverse [(k, v)] q]
    show alookup (t.foldl (fun acc p => sortedInsert acc p.1 p.2)
      (sortedInsert m k v)) q = _
    rw [alookup_foldl_sortedInsert t (sortedInsert m k v) q,
      alookup_sortedInsert m k v q]
    cases h : alookup t.reverse q with
    | none => by_cases hq : k = q <;> simp [alookup, hq]
    | some r => rfl

theorem alookup_jsonOfMap (l : List (String × Json))
    (h : (l.map Prod.fst).Nodup) (q : String) :
    alookup (jsonOfMap l) q = alookup l q := by
  show alookup (l.foldl (fun acc p => sortedInsert acc p.1 p.2) []) q = _
  rw [alookup_foldl_sortedInsert l [] q, alookup_reverse_of_nodup l h q]
  cases hl : alookup l q
  · rfl
  · rfl

theorem map_fst_map_value {α β : Type} (G : α → β) :
    ∀ (l : List (String × α)),
      (l.map (fun p => (p.1, G p.2))).map Prod.fst = l.map Prod.fst
  | [] => rfl
  | x :: t => by simp [map_fst_map_value G t]

theorem alookup_map_value {α β : Type} (G : α → β) :
    ∀ (l : List (String × α)) (q : String),
      alookup (l.map (fun p => (p.1, G p.2))) q = Option.map G (alookup l q)
  | [], _ => rfl
  | (k, v) :: t, q => by
    simp only [List.map_cons, alookup]
    by_cases hq : k = q
    · simp [hq]
    · simp [hq, alookup_map_value G t q]

theorem decomposeEntities_ok (S : List (String × SolidityFile)) (p : String)
    (f : SolidityFile) (fn : String) (ss : SolcSource)
    (hf : alookup S p = some f) (hfn : pathFileName p = some fn) :
    ∀ cs, decomposeEntities S p ss cs = Except.ok (cs.map (artifactFor p fn f ss))
  | [] => rfl
  | (n, c) :: t => by
    simp only [decomposeEntities, hf, build_contract_schema, hfn]
    rw [decomposeEntities_ok S p f fn ss hf hfn t]
    rfl

theorem decomposeEntities_filename :
    ∀ (cs : List (String × SolcContract)) (S : List (String × SolidityFile))
      (p : String) (ss : SolcSource) (arts : List SolidityArtifact),
      decomposeEntities S p ss cs = Except.ok arts →
      ∀ a ∈ arts, pathFileName a.source_path = some a.file_name
  | [], S, p, ss, arts, h => by
    cases h
    intro a ha
    simp at ha
  | (n, c) :: t, S, p, ss, arts, h => by
    simp only [decomposeEntities] at h
    cases hf : alookup S p with
    | none => rw [hf] at h; cases h
    | some f =>
      rw [hf] at h
      simp only [build_contract_schema] at h
      cases hfn : pathFileName p with
      | none => rw [hfn] at h; cases h
      | some fn =>
        rw [hfn] at h
        cases hr : decomposeEntities S p ss t with
        | error e => rw [hr] at h; cases h
        | ok rest =>
          rw [hr] at h
          cases h
          intro a ha
          rcases List.mem_cons.mp ha with ha | ha
          · subst ha
            exact hfn
          · exact decomposeEntities_filename t S p ss rest hr a ha

theorem decomposeContracts_cons_error (os : List (String × SolcSource))
    (S : List (String × SolidityFile)) (p0 : String)
    (cs0 : List (String × SolcContract))
    (t : List (String × List (String × SolcContract)))
    (h : ∃ e, decomposeContracts os S t = Except.error e) :
    ∃ e, decomposeContracts os S ((p0, cs0) :: t) = Except.error e := by
  obtain ⟨e, he⟩ := h
  cases hm : alookup os p0 with
  | none => exact ⟨DecomposeError.missingSourceMeta p0, by simp [decomposeContracts, hm]⟩
  | some ss =>
    cases hde : decomposeEntities S p0 ss cs0 with
    | error e1 => exact ⟨e1, by simp [decomposeContracts, hm, hde]⟩
    | ok arts => exact ⟨e, by simp [decomposeContracts, hm, hde, he]⟩

theorem decomposeContracts_error_missing_meta :
    ∀ (cl : List (String × List (String × SolcContract)))
      (os : List (String × SolcSource)) (S : List (String × SolidityFile))
      (p : String) (cs : List (String × SolcContract)),
      (p, cs) ∈ cl → alookup os p = none →
      ∃ e, decomposeContracts os S cl = Except.error e
  | [], _, _, _, _, hm, _ => by simp at hm
  | (p0, cs0) :: t, os, S, p, cs, hm, habs => by
    rcases List.mem_cons.mp hm with hm | hm
    · have hp : p0 = p := (congrArg Prod.fst hm).symm
      subst hp
      exact ⟨DecomposeError.missingSourceMeta p0, by simp [decomposeContracts, habs]⟩
    · exact decomposeContracts_cons_error os S p0 cs0 t
        (decomposeContracts_error_missing_meta t os S p cs hm habs)

theorem decomposeContracts_error_missing_file :
    ∀ (cl : List (String × List (String × SolcContract)))
      (os : List (String × SolcSource)) (S : List (String × SolidityFile))
      (p : String) (cs : List (String × SolcContract)),
      (p, cs) ∈ cl → cs ≠ [] → alookup S p = none →
      ∃ e, decomposeContracts os S cl = Except.error e
  | [], _, _, _, _, hm, _, _ => by simp at hm
  | (p0, cs0) :: t, os, S, p, cs, hm, hne, habs => by
    rcases List.mem_cons.mp hm with hm | hm
    · obtain ⟨hp, hcs⟩ := Prod.mk.injEq .. ▸ hm
      subst hp
      subst hcs
      cases hmm : alookup os p with
      | none => exact ⟨DecomposeError.missingSourceMeta p, by simp [decomposeContracts, hmm]⟩
      | some ss =>
        rcases cs with _ | ⟨⟨n, c⟩, rest⟩
        · exact absurd rfl hne
        · refine ⟨DecomposeError.missingSourceFile p, ?_⟩
          simp [decomposeContracts, hmm, decomposeEntities, habs]
    · exact decomposeContracts_cons_error os S p0 cs0 t
        (decomposeContracts_error_missing_file t os S p cs hm hne habs)

theorem decomposeContracts_error_no_filename :
    ∀ (cl : List (String × List (String × SolcContract)))
      (os : List (String × SolcSource)) (S : List (String × SolidityFile))
      (p : String) (cs : List (String × SolcContract)),
      (p, cs) ∈ cl → cs ≠ [] → pathFileName p = none →
      ∃ e, decomposeContracts os S cl = Except.error e
  | [], _, _, _, _, hm, _, _ => by simp at hm
  | (p0, cs0) :: t, os, S, p, cs, hm, hne, hfn => by
    rcases List.mem_cons.mp hm with hm | hm
    · obtain ⟨hp, hcs⟩ := Prod.mk.injEq .. ▸ hm
      subst hp
      subst hcs
      cases hmm : alookup os p with
      | none => exact ⟨DecomposeError.missingSourceMeta p, by simp [decomposeContracts, hmm]⟩
      | some ss =>
        rcases cs with _ | ⟨⟨n, c⟩, rest⟩
        · exact absurd rfl hne
        · cases hsf : alookup S p with
          | none =>
            refine ⟨DecomposeError.missingSourceFile p, ?_⟩
            simp [decomposeContracts, hmm, decomposeEntities, hsf]
          | some f =>
            refine ⟨DecomposeError.missingFileName p, ?_⟩
            simp [decomposeContracts, hmm, decomposeEntities, hsf,
              build_contract_schema, hfn]
    · exact decomposeContracts_cons_error os S p0 cs0 t
        (decomposeContracts_error_no_filename t os S p cs hm hne hfn)

theorem decomposeContracts_ok_spec :
    ∀ (cl : List (String × List (String × SolcContract)))
      (os : List (String × SolcSource)) (S : List (String × SolidityFile)),
      (∀ p cs, (p, cs) ∈ cl →
        (alookup os p).isSome = true ∧ (alookup S p).isSome = true ∧
        (pathFileName p).isSome = true) →
      ∃ arts, decomposeContracts os S cl = Except.ok arts ∧
        arts.length = entityCount cl ∧
        ∀ a ∈ arts, ∃ cs c, (a.source_path, cs) ∈ cl ∧ (a.contract_name, c) ∈ cs
  | [], os, S, _ => ⟨[], rfl, rfl, by simp⟩
  | (p, cs) :: t, os, S, h => by
    obtain ⟨hos, hS, hfn⟩ := h p cs (List.mem_cons_self _ _)
    obtain ⟨ss, hss⟩ := Option.isSome_iff_exists.mp hos
    obtain ⟨f, hf⟩ := Option.isSome_iff_exists.mp hS
    obtain ⟨fn, hfn2⟩ := Option.isSome_iff_exists.mp hfn
    obtain ⟨rest, hrest, hlen, hmem⟩ := decomposeContracts_ok_spec t os S
      (fun p2 cs2 hm => h p2 cs2 (List.mem_cons_of_mem _ hm))
    refine ⟨cs.map (artifactFor p fn f ss) ++ rest, ?_, ?_, ?_⟩
    · simp [decomposeContracts, hss, decomposeEntities_ok S p f fn ss hf hfn2 cs, hrest]
    · simp only [List.length_append, List.length_map, hlen]
      simp [entityCount]
    · intro a ha
      rcases List.mem_append.mp ha with ha | ha
      · obtain ⟨nc, hnc, hae⟩ := List.mem_map.mp ha
        refine ⟨cs, nc.2, ?_, ?_⟩
        · rw [← hae]
          exact List.mem_cons_self _ _
        · rw [← hae]
          show (nc.1, nc.2) ∈ cs
          simpa using hnc
      · obtain ⟨cs2, c2, hm1, hm2⟩ := hmem a ha
        exact ⟨cs2, c2, List.mem_cons_of_mem _ hm1, hm2⟩

theorem countP_key_eq_one {κ α : Type} [DecidableEq κ] :
    ∀ (l : List (κ × α)) (q : κ), (l.map Prod.fst).Nodup →
      q ∈ l.map Prod.fst → l.countP (fun e => decide (e.1 = q)) = 1
  | [], q, _, h => by simp at h
  | (k, v) :: t, q, hn, h => by
    simp only [List.map_cons, List.nodup_cons] at hn
    simp only [List.map_cons, List.mem_cons] at h
    rw [List.countP_cons]
    by_cases hk : k = q
    · subst hk
      rw [countP_key_eq_zero t k hn.1]
      simp
    · rcases h with h | h
      · exact absurd h.symm hk
      · rw [countP_key_eq_one t q hn.2 h]
        simp [hk]

theorem decomposeContracts_filename :
    ∀ (cl : List (String × List (String × SolcContract)))
      (os : List (String × SolcSource)) (S : List (String × SolidityFile))
      (arts : List SolidityArtifact),
      decomposeContracts os S cl = Except.ok arts →
      ∀ a ∈ arts, pathFileName a.source_path = some a.file_name
  | [], os, S, arts, h => by
    cases h
    intro a ha
    simp at ha
  | (p, cs) :: t, os, S, arts, h => by
    simp only [decomposeContracts] at h
    cases hm : alookup os p with
    | none => rw [hm] at h; cases h
    | some ss =>
      rw [hm] at h
      dsimp only at h
      cases hde : decomposeEntities S p ss cs with
      | error e => rw [hde] at h; cases h
      | ok arts1 =>
        rw [hde] at h
        dsimp only at h
        cases hr : decomposeContracts os S t with
        | error e => rw [hr] at h; cases h
        | ok rest =>
          rw [hr] at h
          dsimp only at h
          cases h
          intro a ha
          rcases List.mem_append.mp ha with ha | ha
          · exact decomposeEntities_filename cs S p ss arts1 hde a ha
          · exact decomposeContracts_filename t os S rest hr a ha

theorem map_fst_content_map :
    ∀ (l : List (String × SolidityFile)),
      (l.map (fun p => (p.1, Json.obj [("content", Json.str p.2.content)]))).map
        Prod.fst = l.map Prod.fst
  | [] => rfl
  | x :: t => by simp [map_fst_content_map t]

theorem alookup_content_map :
    ∀ (l : List (String × SolidityFile)) (q : String),
      alookup (l.map (fun p => (p.1, Json.obj [("content", Json.str p.2.content)]))) q
        = Option.map (fun f => Json.obj [("content", Json.str f.content)])
            (alookup l q)
  | [], _ => rfl
  | (k, v) :: t, q => by
    simp only [List.map_cons, alookup]
    by_cases hq : k = q
    · simp [hq]
    · simp [hq, alookup_content_map t q]

theorem fileStem_of_no_extension (f : String) (h : extensionOf f = none) :
    fileStem f = f := by
  unfold fileStem
  unfold extensionOf at h
  cases hd : f.toList.reverse.dropWhile (fun c => c != '.') with
  | nil => rfl
  | cons c rest =>
    cases rest with
    | nil => rfl
    | cons c2 rest2 =>
      rw [hd] at h
      simp at h

theorem resolvePairs_cons_inv (a : SolidityArtifact) (t : List SolidityArtifact)
    (ps : List (List String × String))
    (h : resolvePairs (a :: t) = some ps) :
    ∃ k p2, writeTarget a.contract_name = some k ∧ resolvePairs t = some p2 ∧
      ps = (k, serializeArtifact a) :: p2 := by
  simp only [resolvePairs] at h
  cases hw : writeTarget a.contract_name with
  | none => rw [hw] at h; cases h
  | some k =>
    rw [hw] at h
    cases hr : resolvePairs t with
    | none => rw [hr] at h; cases h
    | some p2 =>
      rw [hr] at h
      cases h
      exact ⟨k, p2, rfl, rfl, rfl⟩

theorem resolvePairs_append_inv :
    ∀ (l1 l2 : List SolidityArtifact) (ps : List (List String × String)),
      resolvePairs (l1 ++ l2) = some ps →
      ∃ p1 p2, resolvePairs l1 = some p1 ∧ resolvePairs l2 = some p2 ∧
        ps = p1 ++ p2
  | [], l2, ps, h => ⟨[], ps, rfl, h, rfl⟩
  | a :: t, l2, ps, h => by
    obtain ⟨k, p2, hw, hr, hps⟩ := resolvePairs_cons_inv a (t ++ l2) ps h
    obtain ⟨q1, q2, hq1, hq2, hq⟩ := resolvePairs_append_inv t l2 p2 hr
    refine ⟨(k, serializeArtifact a) :: q1, q2, ?_, hq2, ?_⟩
    · simp [resolvePairs, hw, hq1]
    · rw [hps, hq]
      rfl

/-- Claim C7: for any two compiler outputs that differ only in their errors
field (identical contracts and sources mappings) and any source mapping, the
Decomposer produces exactly the same result: no artifact field depends on the
diagnostics, regardless of severity. -/
theorem claimC7_theorem (contracts : List (String × List (String × SolcContract)))
    (srcs : List (String × SolcSource)) (e1 e2 : List SolcError)
    (S : List (String × SolidityFile)) :
    build_contract_schemas ⟨contracts, srcs, e1⟩ S =
      build_contract_schemas ⟨contracts, srcs, e2⟩ S := rfl

/-- Claim C4: every artifact the Decomposer returns has a file_name field
equal to the basename (Path::file_name) of its source_path field. -/
theorem claimC4_theorem (output : SolcOutput) (S : List (String × SolidityFile))
    (arts : List SolidityArtifact)
    (h : build_contract_schemas output S = Except.ok arts) :
    ∀ a ∈ arts, pathFileName a.source_path = some a.file_name :=
  decomposeContracts_filename output.contracts output.sources S arts h

/-- Witness for C4 at a concrete run with path "contracts/a.sol". -/
theorem claimC4_witness :
    pathFileName (artifactFor "contracts/a.sol" "a.sol" exFile exMeta
      ("C", exContract)).source_path =
    some (artifactFor "contracts/a.sol" "a.sol" exFile exMeta
      ("C", exContract)).file_name :=
  claimC4_theorem exOut4 exS4
    [artifactFor "contracts/a.sol" "a.sol" exFile exMeta ("C", exContract)] rfl
    (artifactFor "contracts/a.sol" "a.sol" exFile exMeta ("C", exContract))
    (List.mem_singleton.mpr rfl)

/-- Claim C1, amended: when every contracts path is present in both the
output's sources mapping and the original source mapping and has a file name,
and additionally every entity name is non-empty, the Decomposer succeeds with
exactly one artifact per (path, entity) pair, each with non-empty entity name
and non-empty source path; an empty contracts mapping yields the empty list. -/
theorem claimC1_theorem (output : SolcOutput) (S : List (String × SolidityFile))
    (hlk : ∀ p cs, (p, cs) ∈ output.contracts →
      (alookup output.sources p).isSome = true ∧ (alookup S p).isSome = true ∧
      (pathFileName p).isSome = true)
    (hname : ∀ p cs n c, (p, cs) ∈ output.contracts → (n, c) ∈ cs → n ≠ "") :
    ∃ arts, build_contract_schemas output S = Except.ok arts ∧
      arts.length = entityCount output.contracts ∧
      ∀ a ∈ arts, a.contract_name ≠ "" ∧ a.source_path ≠ "" := by
  obtain ⟨arts, hok, hlen, hmem⟩ :=
    decomposeContracts_ok_spec output.contracts output.sources S hlk
  refine ⟨arts, hok, hlen, fun a ha => ?_⟩
  obtain ⟨cs, c, hm1, hm2⟩ := hmem a ha
  refine ⟨hname a.source_path cs a.contract_name c hm1 hm2, fun hempty => ?_⟩
  have hfn := (hlk a.source_path cs hm1).2.2
  rw [hempty] at hfn
  exact absurd hfn (by decide)

/-- Counterexample to C1 as stated: a compiler response with an empty entity
name satisfies all the claim's lookup hypotheses yet yields an artifact whose
entity name is empty. -/
theorem claimC1_counterexample :
    (alookup cexOut1.sources "a.sol").isSome = true ∧
    (alookup exS1 "a.sol").isSome = true ∧
    (pathFileName "a.sol").isSome = true ∧
    (build_contract_schemas cexOut1 exS1).map
      (fun arts => arts.map SolidityArtifact.contract_name) = Except.ok [""] :=
  ⟨rfl, rfl, rfl, rfl⟩

/-- Witness for C1 at a concrete consistent one-entity output. -/
theorem claimC1_witness :
    ∃ arts, build_contract_schemas exOut4 exS4 = Except.ok arts ∧
      arts.length = entityCount exOut4.contracts ∧
      ∀ a ∈ arts, a.contract_name ≠ "" ∧ a.source_path ≠ "" :=
  claimC1_theorem exOut4 exS4
    (by
      intro p cs h
      cases List.mem_singleton.mp h
      exact ⟨rfl, rfl, rfl⟩)
    (by
      intro p cs n c h1 h2
      cases List.mem_singleton.mp h1
      cases List.mem_singleton.mp h2
      decide)

/-- Claim C2, amended: when a contracts path is absent from the output's
sources mapping the Decomposer fails with a fatal error (MissingSourceMeta
when that entry is the first failure in iteration order) rather than
returning artifacts, and the pipeline aborts in the decompose stage before
writing any file. -/
theorem claimC2_theorem (output : SolcOutput) (S : List (String × SolidityFile))
    (p : String) (cs : List (String × SolcContract))
    (hmem : (p, cs) ∈ output.contracts)
    (habs : alookup output.sources p = none) :
    ∃ e, build_contract_schemas output S = Except.error e ∧
      ∀ fs, run_pipeline output S fs = Except.error (PipelineError.decompose e) := by
  obtain ⟨e, he⟩ := decomposeContracts_error_missing_meta output.contracts
    output.sources S p cs hmem habs
  exact ⟨e, he, fun fs => by simp [run_pipeline, build_contract_schemas, he]⟩

/-- Counterexample to C2 as stated: with a contracts path absent from the
output's sources mapping present, the Decomposer can still fail with
MissingSourceFile instead of MissingSourceMeta, when an earlier contracts
entry in iteration order hits the original-source lookup first. -/
theorem claimC2_counterexample :
    alookup cexOut2.sources "b.sol" = none ∧
    build_contract_schemas cexOut2 [] =
      Except.error (DecomposeError.missingSourceFile "a.sol") :=
  ⟨rfl, rfl⟩

/-- Witness for C2 at a concrete output whose only path lacks SourceMeta. -/
theorem claimC2_witness :
    ∃ e, build_contract_schemas cexOut2w [] = Except.error e ∧
      ∀ fs, run_pipeline cexOut2w [] fs = Except.error (PipelineError.decompose e) :=
  claimC2_theorem cexOut2w [] "a.sol" [("C", exContract)]
    (List.mem_singleton.mpr rfl) rfl

/-- Claim C8, amended: when a contracts path carrying at least one entity is
absent from the original source mapping, the Decomposer fails with a fatal
error (MissingSourceFile when that entry is the first failure in iteration
order) rather than producing an artifact for that path; a contracts path
with zero entities never performs the lookup and cannot fail this way. -/
theorem claimC8_theorem (output : SolcOutput) (S : List (String × SolidityFile))
    (p : String) (cs : List (String × SolcContract))
    (hmem : (p, cs) ∈ output.contracts) (hne : cs ≠ [])
    (habs : alookup S p = none) :
    ∃ e, build_contract_schemas output S = Except.error e :=
  decomposeContracts_error_missing_file output.contracts output.sources S
    p cs hmem hne habs

/-- Counterexample to C8 as stated: a contracts path with zero entities that
is absent from the original source mapping (while present in the output's
own sources mapping) makes the Decomposer succeed instead of failing. -/
theorem claimC8_counterexample :
    alookup ([] : List (String × SolidityFile)) "a.sol" = none ∧
    (alookup cexOut8.sources "a.sol").isSome = true ∧
    build_contract_schemas cexOut8 [] = Except.ok [] :=
  ⟨rfl, rfl, rfl⟩

/-- Witness for C8 at a concrete one-entity output with no original source. -/
theorem claimC8_witness :
    ∃ e, build_contract_schemas cexOut8w [] = Except.error e :=
  claimC8_theorem cexOut8w [] "a.sol" [("C", exContract)]
    (List.mem_singleton.mpr rfl) (List.cons_ne_nil _ _) rfl

/-- Claim C10, amended: a contracts path carrying at least one entity whose
final path component does not exist makes the Decomposer fail (the file_name
unwrap panics when that entry is reached first), even when the path is
present in both the output's sources mapping and the original source mapping;
success requires every contracts key with entities to have a file name. Path
keys are Rust Strings, hence always valid UTF-8: the to_str unwrap never
fires, and a contracts path with zero entities builds no artifact and cannot
fail this way. -/
theorem claimC10_theorem (output : SolcOutput) (S : List (String × SolidityFile))
    (p : String) (cs : List (String × SolcContract))
    (hmem : (p, cs) ∈ output.contracts) (hne : cs ≠ [])
    (_hmeta : (alookup output.sources p).isSome = true)
    (_hsrc : (alookup S p).isSome = true)
    (hbase : pathFileName p = none) :
    ∃ e, build_contract_schemas output S = Except.error e :=
  decomposeContracts_error_no_filename output.contracts output.sources S
    p cs hmem hne hbase

/-- Counterexample to C10 as stated: the contracts key ".." has no file name
and is present in both mappings, yet decomposition succeeds because the key
carries zero entities, so no artifact is ever built for it. -/
theorem claimC10_counterexample :
    pathFileName ".." = none ∧
    (alookup cexOut10.sources "..").isSome = true ∧
    (alookup cexS10 "..").isSome = true ∧
    build_contract_schemas cexOut10 cexS10 = Except.ok [] :=
  ⟨rfl, rfl, rfl, rfl⟩

/-- Witness for C10 at a concrete one-entity output keyed by "..". -/
theorem claimC10_witness :
    ∃ e, build_contract_schemas cexOut10w cexS10 = Except.error e :=
  claimC10_theorem cexOut10w cexS10 ".." [("C", exContract)]
    (List.mem_singleton.mpr rfl) (List.cons_ne_nil _ _) rfl rfl rfl

/-- Claim C3: the Input Assembler produces exactly the descriptor with
top-level keys language, settings and sources, language the constant
"Solidity", settings holding the supplied evmVersion, optimizer.enabled the
constant false and the fixed outputSelection, and the sources object mapping
each input path to exactly an object with its content string. -/
theorem claimC3_theorem (sources : List (String × SolidityFile)) (v : String)
    (hnd : (sources.map Prod.fst).Nodup) :
    objKeys (build_solc_input_json sources v) = ["language", "settings", "sources"] ∧
    jget (build_solc_input_json sources v) "language" = some (Json.str "Solidity") ∧
    jget (build_solc_input_json sources v) "settings" = some (Json.obj
      [ ("evmVersion", Json.str v)
      , ("optimizer", Json.obj [("enabled", Json.bool false)])
      , ("outputSelection", outputSelectionJson) ]) ∧
    ∀ p, (jget (build_solc_input_json sources v) "sources").bind
        (fun so => jget so p) =
      Option.map (fun f => Json.obj [("content", Json.str f.content)])
        (alookup sources p) := by
  refine ⟨rfl, rfl, rfl, fun p => ?_⟩
  show alookup (jsonOfMap (sources.map
    (fun q => (q.1, Json.obj [("content", Json.str q.2.content)])))) p =
    Option.map (fun f => Json.obj [("content", Json.str f.content)])
      (alookup sources p)
  have hnd2 : ((sources.map
      (fun q => (q.1, Json.obj [("content", Json.str q.2.content)]))).map
      Prod.fst).Nodup := by
    rw [map_fst_content_map sources]
    exact hnd
  rw [alookup_jsonOfMap _ hnd2 p, alookup_content_map sources p]

/-- Witness for C3 at a concrete one-file source mapping. -/
theorem claimC3_witness :
    objKeys (build_solc_input_json exS1 "byzantium") = ["language", "settings", "sources"] ∧
    jget (build_solc_input_json exS1 "byzantium") "language" = some (Json.str "Solidity") ∧
    jget (build_solc_input_json exS1 "byzantium") "settings" = some (Json.obj
      [ ("evmVersion", Json.str "byzantium")
      , ("optimizer", Json.obj [("enabled", Json.bool false)])
      , ("outputSelection", outputSelectionJson) ]) ∧
    ∀ p, (jget (build_solc_input_json exS1 "byzantium") "sources").bind
        (fun so => jget so p) =
      Option.map (fun f => Json.obj [("content", Json.str f.content)])
        (alookup exS1 p) :=
  claimC3_theorem exS1 "byzantium" (by decide)

/-- Claim C5, amended: the Writer writes each artifact's serialization to
<output_dir>/<stem>.json where stem is the entity name with an existing
extension stripped by set_extension; this file name equals
<entity_name>.json exactly when the entity name has no extension. -/
theorem claimC5_theorem (a : SolidityArtifact) (l : List SolidityArtifact)
    (fs : Fs)
    (h0 : isAbsolutePath a.contract_name = false)
    (h1 : pathComponents a.contract_name = [a.contract_name])
    (h2 : a.contract_name ≠ "..") :
    write_contract_schemas (a :: l) fs =
      write_contract_schemas l (ains fs
        (outputDirComponents ++ [fileStem a.contract_name ++ ".json"])
        (serializeArtifact a)) ∧
    (extensionOf a.contract_name = none →
      fileStem a.contract_name ++ ".json" = a.contract_name ++ ".json") := by
  have hp : pushedPath a.contract_name = outputDirComponents ++ [a.contract_name] := by
    unfold pushedPath
    rw [h0, h1]
    simp
  have hwt : writeTarget a.contract_name =
      some (outputDirComponents ++ [fileStem a.contract_name ++ ".json"]) := by
    unfold writeTarget
    rw [hp, List.getLast?_concat, List.dropLast_concat]
    dsimp only
    rw [if_neg h2]
  refine ⟨?_, fun hext => ?_⟩
  · simp only [write_contract_schemas, hwt]
  · rw [fileStem_of_no_extension a.contract_name hext]

/-- Counterexample to C5 as stated: the entity name "Foo.Bar" contains a dot,
and the Writer stores its artifact at Foo.json, not Foo.Bar.json, because
set_extension replaces the existing extension. -/
theorem claimC5_counterexample :
    writeTarget "Foo.Bar" = some (outputDirComponents ++ ["Foo.json"]) ∧
    writeTarget "Foo.Bar" ≠ some (outputDirComponents ++ ["Foo.Bar.json"]) ∧
    (write_contract_schemas [exArtifact "Foo.Bar" "a.sol"] []).map
      (fun fs => fs.map Prod.fst) = Except.ok [outputDirComponents ++ ["Foo.json"]] :=
  ⟨rfl, by decide, rfl⟩

/-- Witness for C5 at the dotless entity name "Foo". -/
theorem claimC5_witness :
    write_contract_schemas [exArtifact "Foo" "a.sol"] [] =
      write_contract_schemas []
        (ains [] (outputDirComponents ++
            [fileStem (exArtifact "Foo" "a.sol").contract_name ++ ".json"])
          (serializeArtifact (exArtifact "Foo" "a.sol"))) ∧
    (extensionOf (exArtifact "Foo" "a.sol").contract_name = none →
      fileStem (exArtifact "Foo" "a.sol").contract_name ++ ".json" =
        (exArtifact "Foo" "a.sol").contract_name ++ ".json") :=
  claimC5_theorem (exArtifact "Foo" "a.sol") [] [] rfl rfl (by decide)

/-- Claim C6: when two artifacts in the written sequence share an entity name
(coming from different source paths) and no later artifact targets the same
file, exactly one file with that name survives and its content is the
serialization of the artifact processed last in iteration order. -/
theorem claimC6_theorem (l1 l2 l3 : List SolidityArtifact)
    (a1 a2 : SolidityArtifact) (fsres : Fs) (tgt : List String)
    (hname : a1.contract_name = a2.contract_name)
    (hpath : a1.source_path ≠ a2.source_path)
    (hlast : ∀ b ∈ l3, writeTarget b.contract_name ≠ writeTarget a2.contract_name)
    (htgt : writeTarget a2.contract_name = some tgt)
    (hrun : write_contract_schemas (l1 ++ a1 :: l2 ++ a2 :: l3) [] = Except.ok fsres) :
    fsres.countP (fun e => decide (e.1 = tgt)) = 1 ∧
    alookup fsres tgt = some (serializeArtifact a2) := by
  obtain ⟨ps, hps⟩ := resolve_of_write_ok _ [] fsres hrun
  have hw2 := write_eq_of_resolve _ ps hps []
  rw [hrun] at hw2
  have hfs : fsres = applyWrites [] ps := by
    injection hw2 with h
  subst hfs
  obtain ⟨pfront, prest, hpf, hprest, hps_eq⟩ :=
    resolvePairs_append_inv (l1 ++ a1 :: l2) (a2 :: l3) ps hps
  obtain ⟨k2, p3, hk2, hp3, hrest_eq⟩ := resolvePairs_cons_inv a2 l3 prest hprest
  rw [htgt] at hk2
  have hk2t : tgt = k2 := Option.some.inj hk2
  subst hk2t
  subst hrest_eq
  subst hps_eq
  have hp3none : lastWrite p3 tgt = none := by
    refine lastWrite_eq_none p3 tgt (fun q hq => ?_)
    obtain ⟨qk, qv⟩ := q
    intro hq1
    have hq1b : qk = tgt := hq1
    obtain ⟨b, hb, hbw⟩ := mem_resolvePairs l3 p3 qk qv hp3 hq
    refine hlast b hb ?_
    rw [hbw, hq1b, htgt]
  have hlw : lastWrite (pfront ++ (tgt, serializeArtifact a2) :: p3) tgt =
      some (serializeArtifact a2) := by
    rw [lastWrite_append pfront ((tgt, serializeArtifact a2) :: p3) tgt]
    simp only [lastWrite]
    rw [hp3none]
    simp
  constructor
  · refine countP_key_eq_one _ tgt
      (nodup_map_fst_applyWrites _ [] (by simp)) ?_
    refine mem_map_fst_applyWrites_of_write _ [] tgt (serializeArtifact a2) ?_
    exact List.mem_append_right _ (List.mem_cons_self _ _)
  · rw [alookup_applyWrites _ [] tgt, hlw]

/-- Witness for C6: two artifacts both named C from a.sol and b.sol leave one
file C.json holding the second serialization. -/
theorem claimC6_witness :
    exFs6.countP (fun e => decide (e.1 = outputDirComponents ++ ["C.json"])) = 1 ∧
    alookup exFs6 (outputDirComponents ++ ["C.json"]) =
      some (serializeArtifact (exArtifact "C" "b.sol")) :=
  claimC6_theorem [] [] [] (exArtifact "C" "a.sol") (exArtifact "C" "b.sol")
    exFs6 (outputDirComponents ++ ["C.json"]) rfl (by decide)
    (by intro b hb; simp at hb) rfl rfl

/-- Claim C9: rerunning the artifact-producing pipeline on the same compiler
output and sources over the file-system state the first run left behind
reproduces exactly that state: artifact files are byte-identical across the
two runs. -/
theorem claimC9_theorem (output : SolcOutput) (S : List (String × SolidityFile))
    (fs0 fs1 : Fs) (hnd : (fs0.map Prod.fst).Nodup)
    (h1 : run_pipeline output S fs0 = Except.ok fs1) :
    run_pipeline output S fs1 = Except.ok fs1 := by
  unfold run_pipeline at h1 ⊢
  cases hb : build_contract_schemas output S with
  | error e => rw [hb] at h1; cases h1
  | ok arts =>
    rw [hb] at h1
    dsimp only at h1
    cases hw : write_contract_schemas arts fs0 with
    | error e => rw [hw] at h1; cases h1
    | ok fs2 =>
      rw [hw] at h1
      dsimp only at h1
      cases h1
      obtain ⟨ps, hps⟩ := resolve_of_write_ok arts fs0 fs1 hw
      have e0 := write_eq_of_resolve arts ps hps fs0
      rw [hw] at e0
      have hfs : fs1 = applyWrites fs0 ps := Except.ok.inj e0
      subst hfs
      dsimp only
      rw [write_eq_of_resolve arts ps hps (applyWrites fs0 ps),
        applyWrites_idem fs0 ps hnd]

/-- Witness for C9 at a concrete run from the empty output directory. -/
theorem claimC9_witness : run_pipeline exOut4 exS4 exFs9 = Except.ok exFs9 :=
  claimC9_theorem exOut4 exS4 [] exFs9 (by simp) rfl
